import Mathlib

/-!
Verification of the Merlin Models building blocks.

This file gives a shallow embedding of the parts of the repository that the
claims concern, and proves or refutes each claim against that embedding:

* `src/merlin/models/torch/transforms/sequences.py` (`TabularPadding`):
  ragged (values/offsets) sequence columns padded to dense tensors.
  1-D integer tensors are modelled as `List Int`, offset tensors as
  `List Nat`, 2-D dense tensors as `List (List Int)` (rows of entries).
* `src/merlin/models/torch/inputs/tabular.py` (`TabularInputBlock`):
  registry-driven initialization at construction time.
* `src/merlin/models/tf/sampling/base.py` (`ItemSampler`,
  `AddRandomNegativesToBatch`): batch-size checks and in-batch negatives.
* `src/merlin/models/tf/blocks/transformer.py` (`TransformerBlock`):
  pre / transformer / post sequencing.

Python dicts are modelled as association lists in insertion order.  A ragged
column that appears in a feature dict as the key pair `name__values` /
`name__offsets` is modelled as a single entry `(name, Feature.ragged values
offsets)`; a plain (dense) tensor entry as `(name, Feature.dense rows)`.
-/

/-! ## Tensor-library primitives used by the source -/

/-- Model of `torch.repeat_interleave(xs, counts)` for 1-D tensors: element `xs[i]`
repeated `counts[i]` times, in order. -/
def repeatInterleave {α : Type} (xs : List α) (counts : List Nat) : List α :=
  (xs.zip counts).flatMap fun p => List.replicate p.2 p.1

/-- Model of `tf.repeat(val, k, axis=0)`: each row repeated `k` times consecutively. -/
def tfRepeat {α : Type} (val : List α) (k : Nat) : List α :=
  val.flatMap fun r => List.replicate k r

/-- Model of `tf.gather(val, ids)` along axis 0.  Out-of-range ids would raise in the
tensor library; the claims only use in-range ids, where `getD` agrees. -/
def tfGather {α : Type} [Inhabited α] (val : List α) (ids : List Nat) : List α :=
  ids.map fun i => val.getD i default

/-- Error values raised by the Python code paths that the claims exercise. -/
inductive PyErr where
  | valueError (msg : String)
  | runtimeError (msg : String)
deriving DecidableEq

/-! ## TabularPadding (src/merlin/models/torch/transforms/sequences.py) -/

/-- A feature tensor of a batch.  `ragged values offsets` stands for the
`name__values` / `name__offsets` key pair of the Python feature dict;
`dense rows` for an ordinary 2-D tensor entry. -/
inductive Feature where
  | ragged (values : List Int) (offsets : List Nat)
  | dense (rows : List (List Int))
deriving DecidableEq

/-- Model of `merlin.models.torch.batch.Batch`: features plus optional targets. -/
structure BatchM where
  features : List (String × Feature)
  targets : Option (List (String × Feature))
deriving DecidableEq

/-- The slice of `merlin.schema.Schema` that `TabularPadding` reads:
`features` is `schema.column_names`, `sparse_features` the names selected by
`Tags.SEQUENCE`. -/
structure PadSchemaM where
  features : List String
  sparse_features : List String
deriving DecidableEq

/-- The batch returned by `TabularPadding.forward`: padded features, padded
targets, and the per-column sequence lengths (`Sequence(seq_inputs_lengths)`). -/
structure PaddedBatchM where
  features : List (String × List (List Int))
  targets : Option (List (String × Feature))
  sequences : List (String × List Nat)
deriving DecidableEq

namespace TabularPadding

/-- Model of `self.padding_idx = 0`. -/
def padding_idx : Int := 0

/-- Model of `offsets[1:] - offsets[:-1]`, the per-row lengths of a ragged column.
Subtraction is `Nat` truncated subtraction; for the monotone offsets the
claims quantify over it agrees with the tensor subtraction. -/
def diffOffsets (offsets : List Nat) : List Nat :=
  (offsets.tail.zip offsets).map fun p => p.1 - p.2

/-- Model of `int(diff_offsets.max())`.  `torch.max` raises on an empty tensor; the
claims only concern columns with at least one row, where the fold below
computes the same maximum. -/
def maxRowLength (diff : List Nat) : Nat :=
  diff.foldl max 0

/-- Model of `TabularPadding._get_indices(offsets, diff_offsets)`: row ids repeated by
the per-row lengths, row offsets repeated likewise, and column ids obtained as
`arange(total) - row_offset_repeated` (an int tensor, hence `Int` columns). -/
def get_indices (offsets : List Nat) (diff : List Nat) : List (Nat × Int) :=
  let row_ids := List.range (offsets.length - 1)
  let row_ids_repeated := repeatInterleave row_ids diff
  let row_offset_repeated := repeatInterleave offsets.dropLast diff
  let col_ids := ((List.range row_offset_repeated.length).zip row_offset_repeated).map
    fun p => (p.1 : Int) - (p.2 : Int)
  row_ids_repeated.zip col_ids

/-- Model of `torch.sparse_coo_tensor(indices.T, values, (numRows, maxLen)).to_dense()`:
entry `(i, j)` is the sum of the values whose coordinate equals `(i, j)`
(torch sums duplicate coordinates of an uncoalesced COO tensor; coordinates
outside the shape would raise in torch and never arise under valid offsets). -/
def toDense (indices : List (Nat × Int)) (values : List Int)
    (numRows maxLen : Nat) : List (List Int) :=
  (List.range numRows).map fun i =>
    (List.range maxLen).map fun (j : Nat) =>
      ((indices.zip values).filter fun e => e.1 = (i, (j : Int))).foldl
        (fun a e => a + e.2) 0

/-- Model of `TabularPadding._pad_dense_tensor(tensor, length)`:
`F.pad(input=tensor, pad=(0, length - tensor.shape[1], 0, 0))` with pad value
0.  A negative pad difference truncates on the right, which is exactly
`take length` after appending the zero fill. -/
def pad_dense_tensor (rows : List (List Int)) (length : Nat) : List (List Int) :=
  rows.map fun r => (r ++ List.replicate (length - r.length) 0).take length

/-- Model of `TabularPadding._pad_ragged_tensor(values, offsets, padding_length)`.
`_squeeze` only flattens an `(N, 1)` tensor to `(N)`; values and offsets are
modelled as already 1-D. -/
def pad_ragged_tensor (values : List Int) (offsets : List Nat)
    (padding_length : Nat) : List (List Int) :=
  let num_rows := offsets.length - 1
  let diff_offsets := diffOffsets offsets
  let max_length := maxRowLength diff_offsets
  let indices := get_indices offsets diff_offsets
  pad_dense_tensor (toDense indices values num_rows max_length) padding_length

/-- Model of `TabularPadding._get_sequence_lengths(sequences)`: ragged columns yield
`offsets[1:] - offsets[:-1]`; dense columns tagged as sequence features yield
`(val != padding_idx).sum(-1)` (per-row count of non-pad entries). -/
def get_sequence_lengths (sparse_features : List String)
    (features : List (String × Feature)) : List (String × List Nat) :=
  features.filterMap fun p =>
    match p.2 with
    | Feature.ragged _ off => some (p.1, diffOffsets off)
    | Feature.dense rows =>
      if p.1 ∈ sparse_features then
        some (p.1, rows.map fun r => r.countP fun x => decide (x ≠ padding_idx))
      else none

/-- The loop inferring `batch_max_sequence_length`: over the features in dict
order, `batch_max = max(int(torch.max(offsets[1:] - offsets[:-1])), batch_max)`
for each offsets-encoded column, starting from 0. -/
def batchMaxFold : List (String × Feature) → Nat → Nat
  | [], acc => acc
  | (_, Feature.ragged _ off) :: rest, acc =>
    batchMaxFold rest (max (maxRowLength (diffOffsets off)) acc)
  | (_, Feature.dense _) :: rest, acc => batchMaxFold rest acc

/-- The maximum row length observed across the offsets-encoded columns. -/
def batchMaxSequenceLength (features : List (String × Feature)) : Nat :=
  batchMaxFold features 0

/-- The padding length used by `forward`: Python runs
`if not _max_sequence_length:` before inferring from the batch, so a
configured value of `0` (like `None`) falls back to the batch maximum. -/
def effectiveLength (max_sequence_length : Option Nat)
    (features : List (String × Feature)) : Nat :=
  match max_sequence_length with
  | some l => if l = 0 then batchMaxSequenceLength features else l
  | none => batchMaxSequenceLength features

/-- Model of `torch.all(x == y)` for 1-D tensors, with broadcasting: equal lengths
compare elementwise, a length-1 tensor broadcasts, any other length mismatch
raises a RuntimeError (`none`). -/
def tensorEqAllBroadcast (x y : List Nat) : Option Bool :=
  if x.length = y.length then some (decide (x = y))
  else if x.length = 1 then some (y.all fun b => x.all fun a => a == b)
  else if y.length = 1 then some (x.all fun a => y.all fun b => a == b)
  else none

/-- The sequence-length check of `forward`:
`torch.all(torch.stack([torch.all(x == seq_shapes[0]) for x in seq_shapes]))`,
raising `ValueError` when some comparison is false.  `torch.stack` of an empty
list raises a RuntimeError, as does an incompatible broadcast. -/
def checkSequenceLengths : List (List Nat) → Except PyErr Unit
  | [] => Except.error (PyErr.runtimeError ("stack expects a non-empty TensorList"))
  | s0 :: tail =>
    match (s0 :: tail).mapM (fun x => tensorEqAllBroadcast x s0) with
    | none => Except.error (PyErr.runtimeError ("The size of tensor a must match the size of tensor b"))
    | some bs =>
      if bs.all id then Except.ok ()
      else Except.error (PyErr.valueError
        ("The sequential inputs must have the same length for each row in the batch, but they are different"))

/-- Model of `TabularPadding.forward(inputs, batch)`.  Features: offsets-encoded
columns listed in the schema are padded with `_pad_ragged_tensor`; `__values`
keys are skipped (absorbed into `Feature.ragged`); dense columns listed in the
schema with a recorded sequence length are padded with `_pad_dense_tensor`.
Targets: offsets-encoded columns are padded, dense targets pass through. -/
def forward (schema : PadSchemaM) (max_sequence_length : Option Nat)
    (batch : BatchM) : Except PyErr PaddedBatchM :=
  let msl := effectiveLength max_sequence_length batch.features
  let seq_inputs_lengths := get_sequence_lengths schema.sparse_features batch.features
  match checkSequenceLengths (seq_inputs_lengths.map fun p => p.2) with
  | Except.error e => Except.error e
  | Except.ok _ =>
    let batch_padded := batch.features.filterMap fun p =>
      match p.2 with
      | Feature.ragged v off =>
        if p.1 ∈ schema.features then some (p.1, pad_ragged_tensor v off msl)
        else none
      | Feature.dense rows =>
        if p.1 ∈ schema.features ∧ (seq_inputs_lengths.lookup p.1).isSome then
          some (p.1, pad_dense_tensor rows msl)
        else none
    let targets_padded := batch.targets.map fun ts => ts.map fun p =>
      match p.2 with
      | Feature.ragged v off => (p.1, Feature.dense (pad_ragged_tensor v off msl))
      | Feature.dense rows => (p.1, Feature.dense rows)
    Except.ok (PaddedBatchM.mk batch_padded targets_padded seq_inputs_lengths)

/-- Spec-worded composition of the padding steps (claim C6): derive the
per-row lengths from the offsets; build the row/column coordinate pairs, row
`i` contributing the coordinates `(i, j)` for each position `j` inside the
row; materialize the sparse representation by pairing the coordinates with the
flat values; densify over shape (rows, observed max length), absent
coordinates giving 0; finally pad the remaining columns on the right up to
`L`. -/
def pad_ragged_tensor_spec (values : List Int) (offsets : List Nat)
    (L : Nat) : List (List Int) :=
  let lengths := diffOffsets offsets
  let numRows := offsets.length - 1
  let maxLen := maxRowLength lengths
  let coords := (List.range numRows).flatMap fun i =>
    (List.range (lengths.getD i 0)).map fun j => (i, j)
  let entries := coords.zip values
  let dense := (List.range numRows).map fun i =>
    (List.range maxLen).map fun j =>
      ((entries.filter fun e => e.1 = (i, j)).foldl (fun a e => a + e.2) 0)
  dense.map fun r => r ++ List.replicate (L - r.length) 0

end TabularPadding

/-! ## TabularInputBlock (src/merlin/models/torch/inputs/tabular.py) -/

namespace TabularInputBlock

/-- The `init` argument: a registered initializer name or a callable. -/
inductive InitArg (σ : Type) where
  | byName (nm : String)
  | byFn (f : σ → σ)

/-- Model of `Registry.get` as a name lookup over the registered initializers.  The
registry class itself lives outside the inspected sources; the in-source null
check `if not init: raise ValueError(...)` shows the lookup yields a falsy
value for a missing name, so it is modelled as an optional lookup. -/
def registryGet {σ : Type} (reg : List (String × (σ → σ))) (nm : String) :
    Option (σ → σ) :=
  (reg.find? fun p => p.1 == nm).map fun p => p.2

/-- Model of `if agg: self.append(Block.parse(agg))`, as a state transformer. -/
def applyAgg {σ : Type} (agg : Option (σ → σ)) (s : σ) : σ :=
  match agg with
  | some g => g s
  | none => s

/-- Model of `TabularInputBlock.__init__` on a block state `σ` (the routes added by an
initializer).  Mirrors the Python control flow: `if init:` is a Python
truthiness test, so `init=None` and the empty-string name both skip the whole
initialization branch; a string name is looked up in the registry, and the
failed lookup rebinds `init` to `None` before
`raise ValueError(f"Initializer {init} not found.")`, so the message
interpolates `None`, not the requested name. -/
def init {σ : Type} (reg : List (String × (σ → σ))) (initArg : Option (InitArg σ))
    (agg : Option (σ → σ)) (base : σ) : Except String σ :=
  match initArg with
  | none => Except.ok (applyAgg agg base)
  | some (InitArg.byFn f) => Except.ok (applyAgg agg (f base))
  | some (InitArg.byName nm) =>
    if nm = "" then Except.ok (applyAgg agg base)
    else
      match registryGet reg nm with
      | none => Except.error ("Initializer None not found.")
      | some f => Except.ok (applyAgg agg (f base))

/-- The block state used by concrete instances below: the list of routes. -/
def demoRegistry : List (String × (List String → List String)) :=
  [("defaults", fun routes => "continuous" :: "categorical" :: routes)]

end TabularInputBlock

/-! ## ItemSampler (src/merlin/models/tf/sampling/base.py) -/

/-- Model of `merlin.models.tf.sampling.collection.ItemCollection`: item ids paired
with row-aligned metadata tensors (first dimension = list length). -/
structure ItemCollectionM (α : Type) where
  ids : List α
  metadata : List (String × List α)
deriving DecidableEq

namespace ItemSampler

/-- The loop body of `_check_inputs_batch_sizes`: `tf.assert_equal` between
the ids batch size and each metadata batch size, raising on the first
mismatch. -/
def checkMeta {α : Type} (embeddingsBatchSize : Nat) :
    List (String × List α) → Except PyErr Unit
  | [] => Except.ok ()
  | (_, feat) :: rest =>
    if feat.length = embeddingsBatchSize then checkMeta embeddingsBatchSize rest
    else Except.error (PyErr.valueError
      ("The batch size (first dim) of embeddings and metadata features must match."))

/-- Model of `ItemSampler._check_inputs_batch_sizes(items)`. -/
def check_inputs_batch_sizes {α : Type} (items : ItemCollectionM α) :
    Except PyErr Unit :=
  checkMeta items.ids.length items.metadata

/-- Modelled from the spec: `ItemSampler.add` is abstract in
`src/merlin/models/tf/sampling/base.py`; concrete samplers live outside the
inspected sources.  The spec requires that batch size equality between item
embeddings and item metadata is enforced and that mismatched sizes fail, so
the modelled `add` validates the incoming items with
`_check_inputs_batch_sizes` before storing them. -/
def add {α : Type} (items : ItemCollectionM α) :
    Except PyErr (ItemCollectionM α) := do
  let _ ← check_inputs_batch_sizes items
  pure items

/-- Model of `ItemSampler.call(items, training)`: during training the items are added
(and hence validated, see `add`), then `self.sample()` produces the result,
modelled by the `sampled` argument. -/
def call {α : Type} (items : ItemCollectionM α) (training : Bool)
    (sampled : ItemCollectionM α) : Except PyErr (ItemCollectionM α) :=
  if training then do
    let _ ← add items
    pure sampled
  else pure sampled

end ItemSampler

/-! ## AddRandomNegativesToBatch (src/merlin/models/tf/sampling/base.py) -/

namespace AddRandomNegativesToBatch

/-- Model of `AddRandomNegativesToBatch.sample_ids(batch_size, items)`:
`tf.random.uniform((n_per_positive * batch_size,), maxval=batch_size,
dtype=tf.int32)` draws integers in `[0, batch_size)`.  The generator is
modelled as an arbitrary stream `rng` reduced modulo `batch_size`, which
realizes exactly the documented output range. -/
def sample_ids (rng : Nat → Nat) (n_per_positive batch_size : Nat) : List Nat :=
  (List.range (n_per_positive * batch_size)).map fun k => rng k % batch_size

/-- Model of `AddRandomNegativesToBatch.call(inputs)`: `batch_size` is the first
dimension of the first feature; item-tagged columns get the gathered negatives
appended, every other column has each row repeated `n_per_positive + 1`
times. -/
def call {ρ : Type} [Inhabited ρ] (item_cols : List String) (n_per_positive : Nat)
    (rng : Nat → Nat) (inputs : List (String × List ρ)) : List (String × List ρ) :=
  let batch_size := ((inputs.map fun p => p.2).headD []).length
  let sampled_ids := sample_ids rng n_per_positive batch_size
  inputs.map fun p =>
    if p.1 ∈ item_cols then (p.1, p.2 ++ tfGather p.2 sampled_ids)
    else (p.1, tfRepeat p.2 (n_per_positive + 1))

end AddRandomNegativesToBatch

/-! ## TransformerBlock (src/merlin/models/tf/blocks/transformer.py) -/

/-- A TF tensor that is either dense or ragged. -/
inductive HFTensor (α : Type) where
  | dense (x : α)
  | ragged (x : α)
deriving DecidableEq

/-- The values flowing through a `TransformerBlock` call chain: the
inputs_embeds dict fed to the first stage, and the abstract values produced
by the stages (transformer outputs, selected outputs). -/
inductive HFData (α : Type) where
  | inputs_embeds (t : HFTensor α)
  | value (x : α)
deriving DecidableEq

namespace TransformerBlock

/-- Model of `inputs.to_tensor()` on a ragged tensor; dense tensors pass through. -/
def toTensor {α : Type} : HFTensor α → HFTensor α
  | HFTensor.ragged x => HFTensor.dense x
  | t => t

/-- Modelled from the spec: `combinators.call_sequentially`
(`merlin.models.tf.core.combinators`) is outside the inspected sources; the
spec describes the block as chaining its pre/post-processing steps, so it is
modelled as applying each layer in order to the previous output. -/
def call_sequentially {β : Type} (layers : List (β → β)) (inputs : β) : β :=
  layers.foldl (fun acc f => f acc) inputs

/-- Model of `TransformerBlock.to_call`: yields `pre` when configured, then the wrapped
transformer, then `post` when configured. -/
def to_call {β : Type} (pre : Option (β → β)) (transformer : β → β)
    (post : Option (β → β)) : List (β → β) :=
  pre.toList ++ [transformer] ++ post.toList

/-- Model of `TransformerBlock.call(inputs)`: a ragged input is densified, wrapped as
the inputs_embeds dict, and passed through `call_sequentially(to_call)`. -/
def call {α : Type} (pre : Option (HFData α → HFData α))
    (transformer : HFData α → HFData α) (post : Option (HFData α → HFData α))
    (inputs : HFTensor α) : HFData α :=
  call_sequentially (to_call pre transformer post)
    (HFData.inputs_embeds (toTensor inputs))

/-- Applying an optional stage: the identity when none is configured. -/
def applyStage {β : Type} (stage : Option (β → β)) (x : β) : β :=
  match stage with
  | some f => f x
  | none => x

end TransformerBlock

/-! ## Auxiliary recursive presentations of the padding computation -/

namespace TabularPadding

/-- Row/column coordinate pairs of a ragged column listed row by row, the
first row carrying index `b`. -/
def pairsRN : List Nat → Nat → List (Nat × Nat)
  | o1 :: o2 :: rest, b =>
    ((List.range (o2 - o1)).map fun j => (b, j)) ++ pairsRN (o2 :: rest) (b + 1)
  | _, _ => []

/-- Coordinate pairs together with the value each one addresses. -/
def rcPairsN : List Nat → List Int → Nat → List ((Nat × Nat) × Int)
  | o1 :: o2 :: rest, vals, b =>
    ((List.range (o2 - o1)).map fun j => ((b, j), vals.getD (o1 + j) 0)) ++
      rcPairsN (o2 :: rest) vals (b + 1)
  | _, _, _ => []

/-- Sum of the values carried by a given coordinate. -/
def entrySum (ps : List ((Nat × Nat) × Int)) (i j : Nat) : Int :=
  (ps.filter fun e => e.1 = (i, j)).foldl (fun a e => a + e.2) 0

theorem diffOffsets_cons_cons (a b : Nat) (l : List Nat) :
    diffOffsets (a :: b :: l) = (b - a) :: diffOffsets (b :: l) := rfl

theorem length_diffOffsets (offsets : List Nat) :
    (diffOffsets offsets).length = offsets.length - 1 := by
  simp [diffOffsets, List.length_zip, List.length_tail]

theorem repeatInterleave_cons {α : Type} (x : α) (xs : List α) (c : Nat)
    (cs : List Nat) :
    repeatInterleave (x :: xs) (c :: cs) =
      List.replicate c x ++ repeatInterleave xs cs := by
  simp [repeatInterleave]

theorem repeatInterleave_nil_counts {α : Type} (xs : List α) :
    repeatInterleave xs [] = [] := by
  simp [repeatInterleave]

theorem range'_zip_replicate_sub (c : Nat) : ∀ (o d : Nat),
    ((List.range' (o + d) c).zip (List.replicate c o)).map
        (fun p => ((p.1 : Int) - (p.2 : Int))) =
      (List.range' d c).map (fun (j : Nat) => (j : Int)) := by
  induction c with
  | zero => intro o d; rfl
  | succ n ih =>
    intro o d
    rw [List.range'_succ, List.range'_succ, List.replicate_succ,
      List.zip_cons_cons, List.map_cons, List.map_cons]
    congr 1
    · push_cast
      ring
    · have : o + d + 1 = o + (d + 1) := by omega
      rw [this]
      exact ih o (d + 1)

theorem replicate_zip {α β : Type} (b : α) : ∀ (l : List β),
    (List.replicate l.length b).zip l = l.map fun x => (b, x) := by
  intro l
  induction l with
  | nil => rfl
  | cons x xs ih => simp [List.replicate_succ, ih]

theorem replicate_zip_of_length {α β : Type} (c : Nat) (b : α) (l : List β)
    (h : l.length = c) :
    (List.replicate c b).zip l = l.map fun x => (b, x) := by
  subst h
  exact replicate_zip b l

theorem get_indices_pieces_eq_pairsRN : ∀ (offsets : List Nat) (b : Nat),
    List.Chain' (· ≤ ·) offsets →
    (repeatInterleave (List.range' b (offsets.length - 1)) (diffOffsets offsets)).zip
        (((List.range' (offsets.headD 0)
            (repeatInterleave offsets.dropLast (diffOffsets offsets)).length).zip
            (repeatInterleave offsets.dropLast (diffOffsets offsets))).map
          fun p => ((p.1 : Int) - (p.2 : Int))) =
      (pairsRN offsets b).map fun c => (c.1, (c.2 : Int))
  | [], b, _ => by simp [pairsRN, diffOffsets, repeatInterleave]
  | [o], b, _ => by simp [pairsRN, diffOffsets, repeatInterleave]
  | o1 :: o2 :: rest, b, hchain => by
    have hle : o1 ≤ o2 := (List.chain'_cons.mp hchain).1
    have htail : List.Chain' (· ≤ ·) (o2 :: rest) := (List.chain'_cons.mp hchain).2
    have hlen : (o1 :: o2 :: rest).length - 1 = rest.length + 1 := by simp
    rw [diffOffsets_cons_cons, hlen, List.range'_succ, repeatInterleave_cons,
      List.dropLast_cons₂, repeatInterleave_cons]
    set c := o2 - o1 with hc
    set ds := diffOffsets (o2 :: rest) with hds
    set rr2 := repeatInterleave (List.range' (b + 1) rest.length) ds with hrr2
    set orr2 := repeatInterleave (o2 :: rest).dropLast ds with horr2
    have hlen1 : (List.replicate c o1 ++ orr2).length = c + orr2.length := by
      simp
    rw [hlen1]
    have hsplit : List.range' o1 (c + orr2.length) =
        List.range' o1 c ++ List.range' (o1 + c) orr2.length := by
      have := List.range'_append o1 c orr2.length 1
      simp only [Nat.one_mul] at this
      rw [Nat.add_comm c orr2.length, ← this]
    have hhead : (o1 :: o2 :: rest).headD 0 = o1 := rfl
    rw [hhead, hsplit,
      List.zip_append (by simp), List.map_append,
      List.zip_append (by simp)]
    have hchunk :
        (List.replicate c b).zip
            (((List.range' o1 c).zip (List.replicate c o1)).map
              fun p => ((p.1 : Int) - (p.2 : Int))) =
          (List.range c).map fun (j : Nat) => (b, (j : Int)) := by
      have h1 : ((List.range' o1 c).zip (List.replicate c o1)).map
          (fun p => ((p.1 : Int) - (p.2 : Int))) =
          (List.range c).map (fun (j : Nat) => (j : Int)) := by
        have := range'_zip_replicate_sub c o1 0
        simpa [List.range_eq_range'] using this
      rw [h1, replicate_zip_of_length c b _ (by simp), List.map_map]
      rfl
    have hrec : rr2.zip
        (((List.range' (o1 + c) orr2.length).zip orr2).map
          fun p => ((p.1 : Int) - (p.2 : Int))) =
        (pairsRN (o2 :: rest) (b + 1)).map fun cc => (cc.1, (cc.2 : Int)) := by
      have ho2 : o1 + c = o2 := by omega
      have hh : (o2 :: rest).headD 0 = o2 := rfl
      have := get_indices_pieces_eq_pairsRN (o2 :: rest) (b + 1) htail
      rw [hh] at this
      simpa [ho2, hrr2, horr2, hds] using this
    rw [hchunk, hrec]
    rw [pairsRN, List.map_append, List.map_map]
    rfl

theorem get_indices_eq (offsets : List Nat) (h0 : offsets.headD 0 = 0)
    (hchain : List.Chain' (· ≤ ·) offsets) :
    get_indices offsets (diffOffsets offsets) =
      (pairsRN offsets 0).map fun c => (c.1, (c.2 : Int)) := by
  have h := get_indices_pieces_eq_pairsRN offsets 0 hchain
  rw [h0] at h
  simpa [get_indices, List.range_eq_range'] using h

theorem getLastD_cons_cons (a b : Nat) (l : List Nat) (d : Nat) :
    (a :: b :: l).getLastD d = (b :: l).getLastD d := by
  simp [List.getLastD_eq_getLast?, List.getLast?_cons_cons]

theorem head_le_getLastD : ∀ (x : Nat) (l : List Nat),
    List.Chain' (· ≤ ·) (x :: l) → x ≤ (x :: l).getLastD 0
  | _, [], _ => le_refl _
  | x, y :: l, h => by
    rw [List.chain'_cons] at h
    calc x ≤ y := h.1
      _ ≤ (y :: l).getLastD 0 := head_le_getLastD y l h.2
      _ = (x :: y :: l).getLastD 0 := (getLastD_cons_cons x y l 0).symm

theorem range_map_zip {β : Type} :
    ∀ (c : Nat) (f : Nat → β) (l : List Int), c ≤ l.length →
    ((List.range c).map f).zip l = (List.range c).map fun j => (f j, l.getD j 0)
  | 0, _, _, _ => by simp
  | c + 1, f, [], h => by simp at h
  | c + 1, f, x :: l, h => by
    rw [List.range_succ_eq_map, List.map_cons, List.map_cons,
      List.zip_cons_cons, List.map_map, List.map_map]
    have hlen : c ≤ l.length := by simpa using h
    have := range_map_zip c (fun j => f (j + 1)) l hlen
    simp only [Function.comp_def, Nat.succ_eq_add_one]
    rw [this]
    simp [List.getD_cons_succ]

theorem pairsRN_zip_vals : ∀ (offsets : List Nat) (vals : List Int) (b : Nat),
    List.Chain' (· ≤ ·) offsets → offsets.getLastD 0 ≤ vals.length →
    (pairsRN offsets b).zip (vals.drop (offsets.headD 0)) = rcPairsN offsets vals b
  | [], vals, b, _, _ => by simp [pairsRN, rcPairsN]
  | [o], vals, b, _, _ => by simp [pairsRN, rcPairsN]
  | o1 :: o2 :: rest, vals, b, hchain, hlast => by
    have hle : o1 ≤ o2 := (List.chain'_cons.mp hchain).1
    have htail : List.Chain' (· ≤ ·) (o2 :: rest) := (List.chain'_cons.mp hchain).2
    have hlast2 : (o2 :: rest).getLastD 0 ≤ vals.length := by
      rw [getLastD_cons_cons] at hlast
      exact hlast
    have ho2 : o2 ≤ vals.length :=
      le_trans (head_le_getLastD o2 rest htail) hlast2
    set c := o2 - o1 with hc
    have hcle : c ≤ (vals.drop o1).length := by
      simp only [List.length_drop]
      omega
    rw [pairsRN, rcPairsN]
    have hhead : (o1 :: o2 :: rest).headD 0 = o1 := rfl
    rw [hhead]
    have hsplitv : vals.drop o1 =
        (vals.drop o1).take c ++ (vals.drop o1).drop c :=
      (List.take_append_drop c (vals.drop o1)).symm
    rw [hsplitv, List.zip_append (by
      simp only [List.length_map, List.length_range, List.length_take,
        List.length_drop]
      omega)]
    have hchunk : ((List.range c).map fun j => (b, j)).zip ((vals.drop o1).take c) =
        (List.range c).map fun j => ((b, j), vals.getD (o1 + j) 0) := by
      have htlen : c ≤ ((vals.drop o1).take c).length := by
        simp only [List.length_take]
        omega
      rw [range_map_zip c _ _ htlen]
      apply List.map_congr_left
      intro j hj
      have hjc : j < c := List.mem_range.mp hj
      congr 1
      rw [List.getD_eq_getElem?_getD, List.getD_eq_getElem?_getD,
        List.getElem?_take, if_pos hjc, List.getElem?_drop]
    have hrest : (vals.drop o1).drop c = vals.drop o2 := by
      rw [List.drop_drop]
      congr 1
      omega
    rw [hchunk, hrest]
    have := pairsRN_zip_vals (o2 :: rest) vals (b + 1) htail hlast2
    have hh2 : (o2 :: rest).headD 0 = o2 := rfl
    rw [hh2] at this
    rw [this]

theorem foldl_add_init : ∀ (l : List ((Nat × Nat) × Int)) (a : Int),
    l.foldl (fun x e => x + e.2) a = a + l.foldl (fun x e => x + e.2) 0
  | [], a => by simp
  | e :: l, a => by
    simp only [List.foldl_cons]
    rw [foldl_add_init l (a + e.2), foldl_add_init l (0 + e.2)]
    ring

theorem entrySum_append (ps qs : List ((Nat × Nat) × Int)) (i j : Nat) :
    entrySum (ps ++ qs) i j = entrySum ps i j + entrySum qs i j := by
  unfold entrySum
  rw [List.filter_append, List.foldl_append, foldl_add_init]

theorem range_filter_eq (j : Nat) : ∀ (c : Nat),
    (List.range c).filter (fun x => decide (x = j)) = if j < c then [j] else []
  | 0 => by simp
  | c + 1 => by
    rw [List.range_succ, List.filter_append, range_filter_eq j c]
    rcases Nat.lt_trichotomy j c with h | h | h
    · rw [if_pos h, if_pos (by omega)]
      simp
      omega
    · subst h
      simp
    · rw [if_neg (by omega), if_neg (by omega)]
      simp
      omega

theorem rcPairsN_row_ge : ∀ (offsets : List Nat) (vals : List Int) (b : Nat)
    (e : (Nat × Nat) × Int), e ∈ rcPairsN offsets vals b → b ≤ e.1.1
  | [], _, _, _, h => by simp [rcPairsN] at h
  | [o], _, _, _, h => by simp [rcPairsN] at h
  | o1 :: o2 :: rest, vals, b, e, h => by
    rw [rcPairsN, List.mem_append] at h
    rcases h with h | h
    · obtain ⟨j, _, rfl⟩ := List.mem_map.mp h
      exact le_refl b
    · exact le_trans (by omega) (rcPairsN_row_ge (o2 :: rest) vals (b + 1) e h)

theorem entrySum_rcPairsN : ∀ (offsets : List Nat) (vals : List Int) (b r j : Nat),
    entrySum (rcPairsN offsets vals b) (b + r) j =
      if r < offsets.length - 1 ∧ j < (diffOffsets offsets).getD r 0 then
        vals.getD (offsets.getD r 0 + j) 0
      else 0
  | [], vals, b, r, j => by simp [rcPairsN, entrySum]
  | [o], vals, b, r, j => by simp [rcPairsN, entrySum]
  | o1 :: o2 :: rest, vals, b, r, j => by
    rw [rcPairsN, entrySum_append]
    have hrec0 : ∀ rr, rr < b + 1 →
        entrySum (rcPairsN (o2 :: rest) vals (b + 1)) rr j = 0 := by
      intro rr hrr
      unfold entrySum
      have hnil : (rcPairsN (o2 :: rest) vals (b + 1)).filter
          (fun e => decide (e.1 = (rr, j))) = [] := by
        rw [List.filter_eq_nil_iff]
        intro e he
        have hge := rcPairsN_row_ge (o2 :: rest) vals (b + 1) e he
        simp only [decide_eq_true_eq]
        intro hcontra
        rw [hcontra] at hge
        simp at hge
        omega
      rw [hnil]
      rfl
    have hchunk : ∀ rr jj,
        entrySum ((List.range (o2 - o1)).map fun j2 => ((b, j2), vals.getD (o1 + j2) 0))
          rr jj =
        if rr = b ∧ jj < o2 - o1 then vals.getD (o1 + jj) 0 else 0 := by
      intro rr jj
      unfold entrySum
      rw [List.filter_map]
      have hpred : ((fun e => decide (e.1 = (rr, jj))) ∘
          fun j2 => ((b, j2), vals.getD (o1 + j2) 0)) =
          fun j2 => decide (b = rr ∧ j2 = jj) := by
        funext j2
        simp [Prod.ext_iff]
      rw [hpred]
      by_cases hb : b = rr
      · subst hb
        have : (fun j2 => decide (b = b ∧ j2 = jj)) = fun j2 => decide (j2 = jj) := by
          funext j2
          simp
        rw [this, range_filter_eq]
        by_cases hjj : jj < o2 - o1
        · rw [if_pos hjj, if_pos ⟨rfl, hjj⟩]
          simp
        · rw [if_neg hjj, if_neg (by tauto)]
          rfl
      · have : (fun j2 => decide (b = rr ∧ j2 = jj)) = fun _ => false := by
          funext j2
          simp [hb]
        rw [this]
        rw [if_neg (by tauto)]
        simp
    match r with
    | 0 =>
      rw [hchunk (b + 0) j, hrec0 (b + 0) (by omega)]
      simp only [Nat.add_zero, diffOffsets_cons_cons, List.getD_cons_zero,
        List.length_cons, Nat.add_sub_cancel]
      by_cases hj : j < o2 - o1
      · simp [hj]
      · simp [hj]
    | r' + 1 =>
      rw [hchunk (b + (r' + 1)) j]
      rw [if_neg (by omega)]
      have hr : b + (r' + 1) = (b + 1) + r' := by omega
      rw [hr, entrySum_rcPairsN (o2 :: rest) vals (b + 1) r' j]
      simp only [diffOffsets_cons_cons, List.getD_cons_succ, List.length_cons,
        Nat.zero_add, Nat.add_sub_cancel]
      rw [zero_add]
      exact if_congr (by omega) rfl rfl

theorem castPair_filter_foldl (ps : List ((Nat × Nat) × Int)) (i j : Nat) :
    (((ps.map fun e => ((e.1.1, (e.1.2 : Int)), e.2)).filter
        fun e => e.1 = (i, (j : Int))).foldl (fun a e => a + e.2) 0) =
      entrySum ps i j := by
  unfold entrySum
  rw [List.filter_map]
  have hpred : ((fun (e : (Nat × Int) × Int) => decide (e.1 = (i, (j : Int)))) ∘
      fun (e : (Nat × Nat) × Int) => ((e.1.1, (e.1.2 : Int)), e.2)) =
      fun (e : (Nat × Nat) × Int) => decide (e.1 = (i, j)) := by
    funext e
    simp [Prod.ext_iff]
  rw [hpred, List.foldl_map]

theorem zip_map_cast (ps : List (Nat × Nat)) (vals : List Int) :
    ((ps.map fun c => (c.1, (c.2 : Int))).zip vals) =
      (ps.zip vals).map fun e => ((e.1.1, (e.1.2 : Int)), e.2) := by
  rw [List.zip_map_left]
  apply List.map_congr_left
  intro e _
  rfl

theorem toDense_entries (values : List Int) (offsets : List Nat)
    (h0 : offsets.headD 0 = 0) (hchain : List.Chain' (· ≤ ·) offsets)
    (hlast : offsets.getLastD 0 ≤ values.length) (m : Nat) :
    toDense (get_indices offsets (diffOffsets offsets)) values
        (offsets.length - 1) m =
      (List.range (offsets.length - 1)).map fun i =>
        (List.range m).map fun j =>
          if j < (diffOffsets offsets).getD i 0 then
            values.getD (offsets.getD i 0 + j) 0
          else 0 := by
  unfold toDense
  apply List.map_congr_left
  intro i hi
  apply List.map_congr_left
  intro j _
  have hin : i < offsets.length - 1 := List.mem_range.mp hi
  rw [get_indices_eq offsets h0 hchain, zip_map_cast, castPair_filter_foldl]
  have hz := pairsRN_zip_vals offsets values 0 hchain hlast
  rw [h0, List.drop_zero] at hz
  rw [hz]
  have := entrySum_rcPairsN offsets values 0 i j
  simp only [Nat.zero_add] at this
  rw [this]
  by_cases hj : j < (diffOffsets offsets).getD i 0
  · rw [if_pos ⟨hin, hj⟩, if_pos hj]
  · rw [if_neg (by tauto), if_neg hj]

theorem take_append_replicate (r : List Int) (L : Nat) (h : r.length ≤ L) :
    (r ++ List.replicate (L - r.length) (0 : Int)).take L =
      r ++ List.replicate (L - r.length) 0 := by
  apply List.take_of_length_le
  simp only [List.length_append, List.length_replicate]
  omega

theorem le_foldl_max : ∀ (l : List Nat) (a : Nat), a ≤ l.foldl max a
  | [], a => le_refl a
  | x :: xs, a => le_trans (le_max_left a x) (le_foldl_max xs (max a x))

theorem mem_le_foldl_max : ∀ (l : List Nat) (a x : Nat), x ∈ l → x ≤ l.foldl max a
  | [], _, _, h => by cases h
  | y :: ys, a, x, h => by
    rcases List.mem_cons.mp h with h | h
    · subst h
      exact le_trans (le_max_right a x) (le_foldl_max ys (max a x))
    · exact mem_le_foldl_max ys (max a y) x h

theorem getD_le_maxRowLength (diff : List Nat) (i : Nat) (hi : i < diff.length) :
    diff.getD i 0 ≤ maxRowLength diff := by
  have hmem : diff.getD i 0 ∈ diff := by
    rw [List.getD_eq_getElem?_getD, List.getElem?_eq_getElem hi]
    exact List.getElem_mem hi
  exact mem_le_foldl_max diff 0 _ hmem

theorem flatMap_congr_mem {α β : Type} : ∀ (l : List α) (f g : α → List β),
    (∀ x ∈ l, f x = g x) → l.flatMap f = l.flatMap g
  | [], _, _, _ => rfl
  | x :: xs, f, g, h => by
    rw [List.flatMap_cons, List.flatMap_cons, h x (List.mem_cons_self x xs),
      flatMap_congr_mem xs f g fun y hy => h y (List.mem_cons_of_mem x hy)]

theorem range_flatMap_pairs : ∀ (offsets : List Nat) (b : Nat),
    ((List.range (offsets.length - 1)).flatMap fun i =>
      (List.range ((diffOffsets offsets).getD i 0)).map fun j => (b + i, j)) =
      pairsRN offsets b
  | [], b => by simp [pairsRN, diffOffsets]
  | [o], b => by simp [pairsRN, diffOffsets]
  | o1 :: o2 :: rest, b => by
    have hlen : (o1 :: o2 :: rest).length - 1 = ((o2 :: rest).length - 1) + 1 := by
      simp
    rw [hlen, List.range_succ_eq_map, List.flatMap_cons, pairsRN]
    congr 1
    rw [List.flatMap_map]
    rw [flatMap_congr_mem _ _
      (fun i => (List.range ((diffOffsets (o2 :: rest)).getD i 0)).map
        fun j => ((b + 1) + i, j))
      (by
        intro i _
        simp only [Function.comp_apply, diffOffsets_cons_cons, Nat.succ_eq_add_one,
          List.getD_cons_succ]
        apply List.map_congr_left
        intro j _
        congr 1
        omega)]
    exact range_flatMap_pairs (o2 :: rest) (b + 1)

theorem pad_ragged_tensor_eq_spec (values : List Int) (offsets : List Nat) (L : Nat)
    (h0 : offsets.headD 0 = 0) (hchain : List.Chain' (· ≤ ·) offsets)
    (hlast : offsets.getLastD 0 ≤ values.length)
    (hL : maxRowLength (diffOffsets offsets) ≤ L) :
    pad_ragged_tensor values offsets L = pad_ragged_tensor_spec values offsets L := by
  simp only [pad_ragged_tensor, pad_ragged_tensor_spec]
  rw [toDense_entries values offsets h0 hchain hlast]
  have hcoords : ((List.range (offsets.length - 1)).flatMap fun i =>
      (List.range ((diffOffsets offsets).getD i 0)).map fun j => (i, j)) =
      pairsRN offsets 0 := by
    rw [← range_flatMap_pairs offsets 0]
    apply flatMap_congr_mem
    intro i _
    apply List.map_congr_left
    intro j _
    simp
  rw [hcoords]
  have hz := pairsRN_zip_vals offsets values 0 hchain hlast
  rw [h0, List.drop_zero] at hz
  rw [hz]
  have hspec : ((List.range (offsets.length - 1)).map fun i =>
      (List.range (maxRowLength (diffOffsets offsets))).map fun j =>
        ((rcPairsN offsets values 0).filter fun e => e.1 = (i, j)).foldl
          (fun a e => a + e.2) 0) =
      (List.range (offsets.length - 1)).map fun i =>
        (List.range (maxRowLength (diffOffsets offsets))).map fun j =>
          if j < (diffOffsets offsets).getD i 0 then
            values.getD (offsets.getD i 0 + j) 0
          else 0 := by
    apply List.map_congr_left
    intro i hi
    apply List.map_congr_left
    intro j _
    have hes := entrySum_rcPairsN offsets values 0 i j
    simp only [Nat.zero_add] at hes
    rw [show ((rcPairsN offsets values 0).filter fun e => e.1 = (i, j)).foldl
        (fun a e => a + e.2) 0 = entrySum (rcPairsN offsets values 0) i j from rfl,
      hes]
    have hin : i < offsets.length - 1 := List.mem_range.mp hi
    by_cases hj : j < (diffOffsets offsets).getD i 0
    · rw [if_pos ⟨hin, hj⟩, if_pos hj]
    · rw [if_neg (by tauto), if_neg hj]
  rw [hspec]
  simp only [pad_dense_tensor]
  apply List.map_congr_left
  intro r hr
  obtain ⟨i, hi, rfl⟩ := List.mem_map.mp hr
  apply take_append_replicate
  simp only [List.length_map, List.length_range]
  exact hL

theorem pad_ragged_tensor_length (values : List Int) (offsets : List Nat) (L : Nat) :
    (pad_ragged_tensor values offsets L).length = offsets.length - 1 := by
  simp [pad_ragged_tensor, pad_dense_tensor, toDense]

theorem pad_ragged_tensor_row_length (values : List Int) (offsets : List Nat)
    (L : Nat) : ∀ r ∈ pad_ragged_tensor values offsets L, r.length = L := by
  intro r hr
  simp only [pad_ragged_tensor, pad_dense_tensor, toDense, List.mem_map,
    List.map_map] at hr
  obtain ⟨i, _, rfl⟩ := hr
  simp only [Function.comp_apply, List.length_take, List.length_append,
    List.length_map, List.length_range, List.length_replicate]
  omega

theorem pad_ragged_tensor_getD (values : List Int) (offsets : List Nat) (L : Nat)
    (h0 : offsets.headD 0 = 0) (hchain : List.Chain' (· ≤ ·) offsets)
    (hlast : offsets.getLastD 0 ≤ values.length)
    (hL : maxRowLength (diffOffsets offsets) ≤ L) :
    ∀ i < offsets.length - 1, ∀ j < L,
      ((pad_ragged_tensor values offsets L).getD i []).getD j 0 =
        if j < (diffOffsets offsets).getD i 0 then
          values.getD (offsets.getD i 0 + j) 0
        else 0 := by
  intro i hi j hj
  have hrow : (pad_ragged_tensor values offsets L).getD i [] =
      (((List.range (maxRowLength (diffOffsets offsets))).map fun jj =>
          if jj < (diffOffsets offsets).getD i 0 then
            values.getD (offsets.getD i 0 + jj) 0
          else 0) ++
        List.replicate (L - maxRowLength (diffOffsets offsets)) 0).take L := by
    simp only [pad_ragged_tensor]
    rw [toDense_entries values offsets h0 hchain hlast]
    simp only [pad_dense_tensor, List.map_map, List.getD_eq_getElem?_getD,
      List.getElem?_map, List.getElem?_range hi, Option.map_some, Option.getD_some,
      Function.comp_apply, List.length_map, List.length_range]
    simp [List.length_map, List.length_range]
  rw [hrow]
  set m := maxRowLength (diffOffsets offsets) with hm
  have hd : (diffOffsets offsets).getD i 0 ≤ m := by
    apply getD_le_maxRowLength
    rw [length_diffOffsets]
    exact hi
  rw [List.getD_eq_getElem?_getD, List.getElem?_take, if_pos hj,
    List.getElem?_append]
  by_cases hjm : j < m
  · rw [if_pos (by simpa using hjm)]
    simp [List.getElem?_map, List.getElem?_range hjm]
  · rw [if_neg (by simpa using hjm)]
    have hrep : j - ((List.range m).map fun jj =>
        if jj < (diffOffsets offsets).getD i 0 then
          values.getD (offsets.getD i 0 + jj) 0
        else 0).length < L - m := by
      simp only [List.length_map, List.length_range]
      omega
    rw [List.getElem?_replicate]
    simp only [List.length_map, List.length_range] at hrep ⊢
    rw [if_pos hrep]
    simp only [Option.getD_some]
    rw [if_neg (by omega)]

theorem batchMaxFold_le : ∀ (features : List (String × Feature)) (a : Nat),
    a ≤ batchMaxFold features a
  | [], a => le_refl a
  | (_, Feature.ragged _ _) :: rest, a =>
    le_trans (le_max_right _ a) (batchMaxFold_le rest _)
  | (_, Feature.dense _) :: rest, a => batchMaxFold_le rest a

theorem mem_le_batchMaxFold : ∀ (features : List (String × Feature)) (a : Nat)
    (nm : String) (v : List Int) (off : List Nat),
    (nm, Feature.ragged v off) ∈ features →
    maxRowLength (diffOffsets off) ≤ batchMaxFold features a
  | [], _, _, _, _, h => by cases h
  | (nm2, Feature.ragged v2 off2) :: rest, a, nm, v, off, h => by
    rcases List.mem_cons.mp h with h | h
    · have heq : Feature.ragged v off = Feature.ragged v2 off2 :=
        congrArg Prod.snd h
      injection heq with h1 h2
      subst h1
      subst h2
      exact le_trans (le_max_left _ a) (batchMaxFold_le rest _)
    · exact mem_le_batchMaxFold rest _ nm v off h
  | (nm2, Feature.dense rows) :: rest, a, nm, v, off, h => by
    rcases List.mem_cons.mp h with h | h
    · exact absurd (congrArg Prod.snd h) (by simp)
    · exact mem_le_batchMaxFold rest a nm v off h

theorem batchMaxFold_attained : ∀ (features : List (String × Feature)) (a : Nat),
    batchMaxFold features a = a ∨
      ∃ nm v off, (nm, Feature.ragged v off) ∈ features ∧
        batchMaxFold features a = maxRowLength (diffOffsets off)
  | [], a => Or.inl rfl
  | (nm2, Feature.dense rows) :: rest, a => by
    rcases batchMaxFold_attained rest a with h | ⟨nm, v, off, hmem, heq⟩
    · exact Or.inl h
    · exact Or.inr ⟨nm, v, off, List.mem_cons_of_mem _ hmem, heq⟩
  | (nm2, Feature.ragged v2 off2) :: rest, a => by
    rcases batchMaxFold_attained rest (max (maxRowLength (diffOffsets off2)) a)
      with h | ⟨nm, v, off, hmem, heq⟩
    · rcases Nat.le_total (maxRowLength (diffOffsets off2)) a with hle | hle
      · left
        rw [show batchMaxFold ((nm2, Feature.ragged v2 off2) :: rest) a =
          batchMaxFold rest (max (maxRowLength (diffOffsets off2)) a) from rfl, h,
          max_eq_right hle]
      · right
        refine ⟨nm2, v2, off2, List.mem_cons_self .., ?_⟩
        rw [show batchMaxFold ((nm2, Feature.ragged v2 off2) :: rest) a =
          batchMaxFold rest (max (maxRowLength (diffOffsets off2)) a) from rfl, h,
          max_eq_left hle]
    · exact Or.inr ⟨nm, v, off, List.mem_cons_of_mem _ hmem, heq⟩

theorem mapM_option_eq_map {α β : Type} (f : α → Option β) (g : α → β) :
    ∀ (l : List α), (∀ x ∈ l, f x = some (g x)) → l.mapM f = some (l.map g)
  | [], _ => rfl
  | x :: xs, h => by
    have hx := h x (List.mem_cons_self x xs)
    have hxs := mapM_option_eq_map f g xs fun y hy => h y (List.mem_cons_of_mem x hy)
    rw [List.map_cons, List.mapM_cons, hx, hxs]
    rfl

/-- The ValueError message raised by the sequence-length check. -/
def seqLenMsg : String :=
  "The sequential inputs must have the same length for each row in the batch, but they are different"

theorem checkSequenceLengths_map (s0 : List Nat) (rest : List (List Nat))
    (hlen : ∀ x ∈ s0 :: rest, x.length = s0.length) :
    checkSequenceLengths (s0 :: rest) =
      if ∀ x ∈ s0 :: rest, x = s0 then Except.ok ()
      else Except.error (PyErr.valueError seqLenMsg) := by
  have hmap : (s0 :: rest).mapM (fun x => tensorEqAllBroadcast x s0) =
      some ((s0 :: rest).map fun x => decide (x = s0)) := by
    apply mapM_option_eq_map
    intro x hx
    unfold tensorEqAllBroadcast
    rw [if_pos (hlen x hx)]
  rw [checkSequenceLengths, hmap]
  by_cases hall : ∀ x ∈ s0 :: rest, x = s0
  · rw [if_pos hall]
    have hbs : ((s0 :: rest).map fun x => decide (x = s0)).all id = true := by
      rw [List.all_eq_true]
      intro b hb
      obtain ⟨x, hx, rfl⟩ := List.mem_map.mp hb
      simp [hall x hx]
    show (if ((s0 :: rest).map fun x => decide (x = s0)).all id then Except.ok ()
        else Except.error (PyErr.valueError seqLenMsg)) = Except.ok ()
    rw [hbs]
    rfl
  · rw [if_neg hall]
    have hbs : ((s0 :: rest).map fun x => decide (x = s0)).all id = false := by
      rw [Bool.eq_false_iff]
      intro hcontra
      rw [List.all_eq_true] at hcontra
      apply hall
      intro x hx
      have := hcontra (decide (x = s0)) (List.mem_map.mpr ⟨x, hx, rfl⟩)
      simpa using this
    show (if ((s0 :: rest).map fun x => decide (x = s0)).all id then Except.ok ()
        else Except.error (PyErr.valueError seqLenMsg)) =
      Except.error (PyErr.valueError seqLenMsg)
    rw [hbs]
    rfl

theorem forward_ok_of_check (schema : PadSchemaM) (msl : Option Nat) (batch : BatchM)
    (hcheck : checkSequenceLengths
        ((get_sequence_lengths schema.sparse_features batch.features).map
          fun p => p.2) = Except.ok ()) :
    forward schema msl batch = Except.ok (PaddedBatchM.mk
      (batch.features.filterMap fun p =>
        match p.2 with
        | Feature.ragged v off =>
          if p.1 ∈ schema.features then
            some (p.1, pad_ragged_tensor v off (effectiveLength msl batch.features))
          else none
        | Feature.dense rows =>
          if p.1 ∈ schema.features ∧
              ((get_sequence_lengths schema.sparse_features batch.features).lookup
                p.1).isSome then
            some (p.1, pad_dense_tensor rows (effectiveLength msl batch.features))
          else none)
      (batch.targets.map fun ts => ts.map fun p =>
        match p.2 with
        | Feature.ragged v off =>
          (p.1, Feature.dense (pad_ragged_tensor v off
            (effectiveLength msl batch.features)))
        | Feature.dense rows => (p.1, Feature.dense rows))
      (get_sequence_lengths schema.sparse_features batch.features)) := by
  simp only [forward, hcheck]

theorem forward_error_of_check (schema : PadSchemaM) (msl : Option Nat)
    (batch : BatchM) (e : PyErr)
    (hcheck : checkSequenceLengths
        ((get_sequence_lengths schema.sparse_features batch.features).map
          fun p => p.2) = Except.error e) :
    forward schema msl batch = Except.error e := by
  simp only [forward, hcheck]

theorem forward_ok_features_mem (schema : PadSchemaM) (msl : Option Nat)
    (batch : BatchM) (out : PaddedBatchM)
    (hok : forward schema msl batch = Except.ok out)
    (name : String) (values : List Int) (offsets : List Nat)
    (hmem : (name, Feature.ragged values offsets) ∈ batch.features)
    (hname : name ∈ schema.features) :
    (name, pad_ragged_tensor values offsets
      (effectiveLength msl batch.features)) ∈ out.features := by
  cases hcheck : checkSequenceLengths
      ((get_sequence_lengths schema.sparse_features batch.features).map
        fun p => p.2) with
  | error e =>
    rw [forward_error_of_check schema msl batch e hcheck] at hok
    cases hok
  | ok u =>
    rw [forward_ok_of_check schema msl batch hcheck] at hok
    cases hok
    apply List.mem_filterMap.mpr
    refine ⟨(name, Feature.ragged values offsets), hmem, ?_⟩
    simp [hname]

theorem range_map_getD (l : List Int) :
    (List.range l.length).map (fun j => l.getD j 0) = l := by
  apply List.ext_getElem
  · simp
  · intro i h1 h2
    simp only [List.getElem_map, List.getElem_range, List.getD_eq_getElem?_getD]
    rw [List.getElem?_eq_getElem h2]
    rfl

theorem tfRepeat_length {α : Type} (k : Nat) :
    ∀ (v : List α), (tfRepeat v k).length = v.length * k
  | [] => by simp [tfRepeat]
  | x :: xs => by
    have := tfRepeat_length k xs
    simp only [tfRepeat, List.flatMap_cons, List.length_append,
      List.length_replicate, List.length_cons] at this ⊢
    rw [this]
    ring

end TabularPadding

/-- Convenience constructor for the monotonicity of a two-element offsets
tensor. -/
theorem chain_le_two (a b : Nat) (h1 : a ≤ b) : List.Chain' (· ≤ ·) [a, b] := by
  rw [List.chain'_cons]
  exact ⟨h1, List.chain'_singleton b⟩

/-- Convenience constructor for the monotonicity of a three-element offsets
tensor. -/
theorem chain_le_three (a b c : Nat) (h1 : a ≤ b) (h2 : b ≤ c) :
    List.Chain' (· ≤ ·) [a, b, c] := by
  rw [List.chain'_cons, List.chain'_cons]
  exact ⟨h1, h2, List.chain'_singleton c⟩

/-! ## Claim theorems -/

/-- C1: for a ragged sequence column given as a values tensor and a monotonic
offsets tensor (starting at 0 and covering the whole values tensor) in which
all rows have equal length, padding with TabularPadding to a length L that is
at least the maximum row length yields a dense tensor in which entry (i, j)
equals values[offsets[i] + j] for every j below the row length, and equals 0
for every j from the row length up to L - 1. -/
theorem claim_C1_ragged_pad_entries (values : List Int) (offsets : List Nat)
    (L rowLen : Nat) (_hlen : 2 ≤ offsets.length)
    (h0 : offsets.headD 0 = 0)
    (hchain : List.Chain' (· ≤ ·) offsets)
    (hlast : offsets.getLastD 0 = values.length)
    (heq : ∀ i < offsets.length - 1,
      (TabularPadding.diffOffsets offsets).getD i 0 = rowLen)
    (hL : TabularPadding.maxRowLength (TabularPadding.diffOffsets offsets) ≤ L) :
    ∀ i < offsets.length - 1, ∀ j < L,
      ((TabularPadding.pad_ragged_tensor values offsets L).getD i []).getD j 0 =
        if j < rowLen then values.getD (offsets.getD i 0 + j) 0 else 0 := by
  intro i hi j hj
  have h := TabularPadding.pad_ragged_tensor_getD values offsets L h0 hchain
    (le_of_eq hlast) hL i hi j hj
  rw [h, heq i hi]

/-- Witness for C1 at values [1, 2, 3, 4], offsets [0, 2, 4] (two rows of
length 2), L = 3. -/
theorem claim_C1_ragged_pad_entries_witness :
    (2 ≤ ([0, 2, 4] : List Nat).length) ∧
    (∀ i < ([0, 2, 4] : List Nat).length - 1, ∀ j < 3,
      ((TabularPadding.pad_ragged_tensor [1, 2, 3, 4] [0, 2, 4] 3).getD i []).getD
          j 0 =
        if j < 2 then
          ([1, 2, 3, 4] : List Int).getD (([0, 2, 4] : List Nat).getD i 0 + j) 0
        else 0) :=
  ⟨by decide, claim_C1_ragged_pad_entries [1, 2, 3, 4] [0, 2, 4] 3 2 (by decide)
    (by decide) (chain_le_three 0 2 4 (by decide) (by decide)) (by decide)
    (by decide) (by decide)⟩

/-- C6: for a ragged column (with monotone offsets starting at 0 and covering
the values tensor) the padding computation equals the composition of the
spec-described steps: per-row lengths from offsets, row/column coordinate
pairs, a sparse representation over shape (rows, observed max length),
densification, and right-padding up to L columns. -/
theorem claim_C6_pad_refinement (values : List Int) (offsets : List Nat)
    (L : Nat) (_hlen : 2 ≤ offsets.length) (h0 : offsets.headD 0 = 0)
    (hchain : List.Chain' (· ≤ ·) offsets)
    (hlast : offsets.getLastD 0 = values.length)
    (hL : TabularPadding.maxRowLength (TabularPadding.diffOffsets offsets) ≤ L) :
    TabularPadding.pad_ragged_tensor values offsets L =
      TabularPadding.pad_ragged_tensor_spec values offsets L :=
  TabularPadding.pad_ragged_tensor_eq_spec values offsets L h0 hchain
    (le_of_eq hlast) hL

/-- Witness for C6 at values [10, 20, 30], offsets [0, 2, 3], L = 4. -/
theorem claim_C6_pad_refinement_witness :
    (2 ≤ ([0, 2, 3] : List Nat).length) ∧
    TabularPadding.pad_ragged_tensor [10, 20, 30] [0, 2, 3] 4 =
      TabularPadding.pad_ragged_tensor_spec [10, 20, 30] [0, 2, 3] 4 :=
  ⟨by decide, claim_C6_pad_refinement [10, 20, 30] [0, 2, 3] 4 (by decide)
    (by decide) (chain_le_three 0 2 3 (by decide) (by decide)) (by decide)
    (by decide)⟩

/-- Counterexample to C7 as stated: for the single-row ragged input with
values [5] and offsets [0, 1], the padding computation does not bypass the
coordinate construction: `_pad_ragged_tensor` unconditionally calls
`_get_indices`, which builds the (non-empty) coordinate list [(0, 0)] that the
sparse tensor is materialized from. -/
theorem claim_C7_counterexample :
    TabularPadding.get_indices [0, 1] (TabularPadding.diffOffsets [0, 1]) =
      [((0 : Nat), (0 : Int))] ∧
    TabularPadding.pad_ragged_tensor [5] [0, 1] 3 = [[5, 0, 0]] := by
  constructor <;> rfl

/-- C7 (amended): for a ragged input whose values tensor encodes a single row
(offsets [0, n] with n = values length, n at least 1), the coordinate
construction is not bypassed: `_get_indices` is still executed and builds the
non-empty coordinate list [(0, 0), ..., (0, n-1)]; the padded dense result is
nevertheless the single row right-padded with zeros (the only special handling
of shapes in `_pad_ragged_tensor` is `_squeeze`, which flattens an (N, 1)
values tensor to (N)). -/
theorem claim_C7_amended_single_row (values : List Int) (n L : Nat)
    (hn : values.length = n) (h1 : 1 ≤ n) (hL : n ≤ L) :
    TabularPadding.get_indices [0, n] (TabularPadding.diffOffsets [0, n]) =
      (List.range n).map (fun (j : Nat) => ((0 : Nat), (j : Int))) ∧
    TabularPadding.get_indices [0, n] (TabularPadding.diffOffsets [0, n]) ≠ [] ∧
    TabularPadding.pad_ragged_tensor values [0, n] L =
      [values ++ List.replicate (L - n) 0] := by
  have hchain : List.Chain' (· ≤ ·) [0, n] := chain_le_two 0 n (Nat.zero_le n)
  have hcoords : TabularPadding.get_indices [0, n]
      (TabularPadding.diffOffsets [0, n]) =
      (List.range n).map (fun (j : Nat) => ((0 : Nat), (j : Int))) := by
    rw [TabularPadding.get_indices_eq [0, n] rfl hchain]
    show ((((List.range (n - 0)).map fun j => (0, j)) ++
      TabularPadding.pairsRN [n] 1).map fun (c : Nat × Nat) => (c.1, (c.2 : Int))) = _
    rw [show TabularPadding.pairsRN [n] 1 = [] from rfl]
    simp [List.map_map]
  refine ⟨hcoords, ?_, ?_⟩
  · rw [hcoords]
    intro hcontra
    have hlen := congrArg List.length hcontra
    simp at hlen
    omega
  · have hdiff : TabularPadding.diffOffsets [0, n] = [n] := by
      simp [TabularPadding.diffOffsets]
    have hlast2 : ([0, n] : List Nat).getLastD 0 ≤ values.length := by
      rw [TabularPadding.getLastD_cons_cons]
      have hsing : ([n] : List Nat).getLastD 0 = n := rfl
      rw [hsing]
      omega
    have hmaxle : TabularPadding.maxRowLength
        (TabularPadding.diffOffsets [0, n]) ≤ L := by
      rw [hdiff]
      show max 0 n ≤ L
      omega
    apply List.ext_getElem
    · rw [TabularPadding.pad_ragged_tensor_length]
      rfl
    · intro i hi1 hi2
      have hi0 : i = 0 := by
        rw [TabularPadding.pad_ragged_tensor_length] at hi1
        simpa using hi1
      subst hi0
      have hrowlen : ∀ r ∈ TabularPadding.pad_ragged_tensor values [0, n] L,
          r.length = L :=
        TabularPadding.pad_ragged_tensor_row_length values [0, n] L
      have hmem : (TabularPadding.pad_ragged_tensor values [0, n] L)[0] ∈
          TabularPadding.pad_ragged_tensor values [0, n] L :=
        List.getElem_mem hi1
      apply List.ext_getElem
      · rw [hrowlen _ hmem]
        simp only [List.getElem_cons_zero, List.length_append,
          List.length_replicate]
        omega
      · intro j hj1 hj2
        have hjL : j < L := by
          rw [hrowlen _ hmem] at hj1
          exact hj1
        have hget := TabularPadding.pad_ragged_tensor_getD values [0, n] L rfl
          hchain hlast2 hmaxle 0 (by simp) j hjL
        rw [hdiff] at hget
        simp only [List.getD_cons_zero] at hget
        have hL1 : ((TabularPadding.pad_ragged_tensor values [0, n] L).getD 0 []).getD
            j 0 = (TabularPadding.pad_ragged_tensor values [0, n] L)[0][j] := by
          rw [List.getD_eq_getElem _ _ hi1]
          exact List.getD_eq_getElem _ _ hj1
        rw [← hL1, hget]
        simp only [List.getElem_cons_zero, Nat.zero_add]
        by_cases hjn : j < n
        · rw [if_pos hjn]
          rw [List.getElem_append_left (show j < values.length by omega)]
          exact List.getD_eq_getElem values 0 (show j < values.length by omega)
        · rw [if_neg hjn]
          rw [List.getElem_append_right (show values.length ≤ j by omega)]
          rw [List.getElem_replicate]

/-- Witness for the amended C7 at values [5], n = 1, L = 3. -/
theorem claim_C7_amended_single_row_witness :
    (([5] : List Int).length = 1) ∧
    (TabularPadding.get_indices [0, 1] (TabularPadding.diffOffsets [0, 1]) =
      (List.range 1).map (fun (j : Nat) => ((0 : Nat), (j : Int))) ∧
    TabularPadding.get_indices [0, 1] (TabularPadding.diffOffsets [0, 1]) ≠ [] ∧
    TabularPadding.pad_ragged_tensor [5] [0, 1] 3 =
      [[5] ++ List.replicate (3 - 1) 0]) :=
  ⟨by decide, claim_C7_amended_single_row [5] 1 3 (by decide) (by decide)
    (by decide)⟩

/-- Counterexample to C2 as stated: with a configured max_sequence_length of 0
(a given value), `forward` does not produce rows of length 0: Python runs
`if not _max_sequence_length:` before using the configured value, so the falsy
0 is replaced by the batch-observed maximum (here 1) and the rows have length
1, not the configured 0. -/
theorem claim_C2_counterexample :
    TabularPadding.forward (PadSchemaM.mk ["a"] []) (some 0)
        (BatchM.mk [("a", Feature.ragged [1, 2] [0, 1, 2])] none) =
      Except.ok (PaddedBatchM.mk [("a", [[1], [2]])] none [("a", [1, 1])]) := by
  rfl

/-- C2 (amended): for every ragged column with rows+1 offsets processed by
TabularPadding.forward, the batch output contains for that column a dense
tensor of shape (rows, L), where L is the configured max_sequence_length when
a nonzero one was given, and otherwise (configured None, or the Python-falsy
configured 0) the maximum per-row length observed across all offsets-encoded
columns of the batch; that observed maximum bounds every offsets-encoded
column of the batch and is attained by one of them (or the batch has none and
it is 0).  Right-padding with pad value 0 is claim C1/C6. -/
theorem claim_C2_amended_forward_shape (schema : PadSchemaM) (msl : Option Nat)
    (batch : BatchM) (out : PaddedBatchM) (name : String)
    (values : List Int) (offsets : List Nat)
    (hmem : (name, Feature.ragged values offsets) ∈ batch.features)
    (hname : name ∈ schema.features)
    (hok : TabularPadding.forward schema msl batch = Except.ok out) :
    ((name, TabularPadding.pad_ragged_tensor values offsets
        (TabularPadding.effectiveLength msl batch.features)) ∈ out.features) ∧
    ((TabularPadding.pad_ragged_tensor values offsets
        (TabularPadding.effectiveLength msl batch.features)).length =
      offsets.length - 1) ∧
    (∀ r ∈ TabularPadding.pad_ragged_tensor values offsets
        (TabularPadding.effectiveLength msl batch.features),
      r.length = TabularPadding.effectiveLength msl batch.features) ∧
    (∀ l, msl = some l → l ≠ 0 →
      TabularPadding.effectiveLength msl batch.features = l) ∧
    ((msl = none ∨ msl = some 0) →
      TabularPadding.effectiveLength msl batch.features =
        TabularPadding.batchMaxSequenceLength batch.features) ∧
    (∀ nm v off2, (nm, Feature.ragged v off2) ∈ batch.features →
      TabularPadding.maxRowLength (TabularPadding.diffOffsets off2) ≤
        TabularPadding.batchMaxSequenceLength batch.features) ∧
    (TabularPadding.batchMaxSequenceLength batch.features = 0 ∨
      ∃ nm v off2, (nm, Feature.ragged v off2) ∈ batch.features ∧
        TabularPadding.batchMaxSequenceLength batch.features =
          TabularPadding.maxRowLength (TabularPadding.diffOffsets off2)) := by
  refine ⟨?_, ?_, ?_, ?_, ?_, ?_, ?_⟩
  · exact TabularPadding.forward_ok_features_mem schema msl batch out hok name
      values offsets hmem hname
  · exact TabularPadding.pad_ragged_tensor_length values offsets _
  · exact TabularPadding.pad_ragged_tensor_row_length values offsets _
  · intro l hl hl0
    subst hl
    simp [TabularPadding.effectiveLength, hl0]
  · intro hcase
    rcases hcase with h | h
    · subst h
      rfl
    · subst h
      simp [TabularPadding.effectiveLength]
  · intro nm v off2 hm
    exact TabularPadding.mem_le_batchMaxFold batch.features 0 nm v off2 hm
  · exact TabularPadding.batchMaxFold_attained batch.features 0

/-- Witness for the amended C2: a batch with one ragged column of two rows and
no configured maximum; the output contains the padded tensor with 2 rows of
length 2 (the batch maximum). -/
theorem claim_C2_amended_forward_shape_witness :
    (("a", Feature.ragged [1, 2, 3] [0, 2, 3]) ∈
      (BatchM.mk [("a", Feature.ragged [1, 2, 3] [0, 2, 3])] none).features) ∧
    (("a", TabularPadding.pad_ragged_tensor [1, 2, 3] [0, 2, 3]
        (TabularPadding.effectiveLength none
          (BatchM.mk [("a", Feature.ragged [1, 2, 3] [0, 2, 3])] none).features)) ∈
      (PaddedBatchM.mk [("a", [[1, 2], [3, 0]])] none [("a", [2, 1])]).features) :=
  ⟨by decide,
    (claim_C2_amended_forward_shape (PadSchemaM.mk ["a"] []) none
      (BatchM.mk [("a", Feature.ragged [1, 2, 3] [0, 2, 3])] none)
      (PaddedBatchM.mk [("a", [[1, 2], [3, 0]])] none [("a", [2, 1])])
      "a" [1, 2, 3] [0, 2, 3] (by decide) (by decide) (by rfl)).1⟩

/-- C3: for a batch whose sequence columns (offsets-encoded columns together
with dense schema-sequence-tagged columns) number at least two and have
per-row length vectors of a common size, TabularPadding.forward raises a
ValueError exactly when the per-row length vectors are not all identical; when
they are all identical it returns a padded batch. -/
theorem claim_C3_sequence_length_check (schema : PadSchemaM) (msl : Option Nat)
    (batch : BatchM)
    (h2 : 2 ≤ (TabularPadding.get_sequence_lengths schema.sparse_features
      batch.features).length)
    (hrows : ∀ p ∈ TabularPadding.get_sequence_lengths schema.sparse_features
        batch.features,
      ∀ q ∈ TabularPadding.get_sequence_lengths schema.sparse_features
        batch.features, p.2.length = q.2.length) :
    ((∃ p ∈ TabularPadding.get_sequence_lengths schema.sparse_features
        batch.features,
      ∃ q ∈ TabularPadding.get_sequence_lengths schema.sparse_features
        batch.features, p.2 ≠ q.2) →
      TabularPadding.forward schema msl batch =
        Except.error (PyErr.valueError TabularPadding.seqLenMsg)) ∧
    ((∀ p ∈ TabularPadding.get_sequence_lengths schema.sparse_features
        batch.features,
      ∀ q ∈ TabularPadding.get_sequence_lengths schema.sparse_features
        batch.features, p.2 = q.2) →
      ∃ out, TabularPadding.forward schema msl batch = Except.ok out) := by
  set lens := TabularPadding.get_sequence_lengths schema.sparse_features
    batch.features with hlens
  cases hsh : lens.map (fun p => p.2) with
  | nil =>
    exfalso
    have : lens.length = 0 := by
      have := congrArg List.length hsh
      simpa using this
    omega
  | cons s0 rest =>
    have hs0 : s0 ∈ lens.map (fun p => p.2) := by
      rw [hsh]
      exact List.mem_cons_self ..
    obtain ⟨q0, hq0, hq0s⟩ := List.mem_map.mp hs0
    have hlen : ∀ x ∈ s0 :: rest, x.length = s0.length := by
      intro x hx
      rw [← hsh] at hx
      obtain ⟨p, hp, rfl⟩ := List.mem_map.mp hx
      rw [← hq0s]
      exact hrows p hp q0 hq0
    have hcm := TabularPadding.checkSequenceLengths_map s0 rest hlen
    constructor
    · rintro ⟨p, hp, q, hq, hne⟩
      have hnall : ¬ ∀ x ∈ s0 :: rest, x = s0 := by
        intro hall
        apply hne
        have hpm : p.2 ∈ s0 :: rest := by
          rw [← hsh]
          exact List.mem_map.mpr ⟨p, hp, rfl⟩
        have hqm : q.2 ∈ s0 :: rest := by
          rw [← hsh]
          exact List.mem_map.mpr ⟨q, hq, rfl⟩
        rw [hall p.2 hpm, hall q.2 hqm]
      rw [if_neg hnall] at hcm
      apply TabularPadding.forward_error_of_check
      rw [← hlens, hsh]
      exact hcm
    · intro hall
      have hallx : ∀ x ∈ s0 :: rest, x = s0 := by
        intro x hx
        rw [← hsh] at hx
        obtain ⟨p, hp, rfl⟩ := List.mem_map.mp hx
        rw [← hq0s]
        exact hall p hp q0 hq0
      rw [if_pos hallx] at hcm
      refine ⟨_, TabularPadding.forward_ok_of_check schema msl batch ?_⟩
      rw [← hlens, hsh]
      exact hcm

/-- Witness for C3: a batch with two ragged columns whose per-row lengths
differ ([1, 1] versus [2, 1]); forward raises the ValueError. -/
theorem claim_C3_sequence_length_check_witness :
    TabularPadding.forward (PadSchemaM.mk ["a", "b"] []) none
      (BatchM.mk [("a", Feature.ragged [1, 2] [0, 1, 2]),
        ("b", Feature.ragged [7, 8, 9] [0, 2, 3])] none) =
      Except.error (PyErr.valueError TabularPadding.seqLenMsg) :=
  (claim_C3_sequence_length_check (PadSchemaM.mk ["a", "b"] []) none
    (BatchM.mk [("a", Feature.ragged [1, 2] [0, 1, 2]),
      ("b", Feature.ragged [7, 8, 9] [0, 2, 3])] none)
    (by decide) (by decide)).1
    ⟨("a", [1, 1]), by decide, ("b", [2, 1]), by decide, by decide⟩

/-- Characterization of the batch-size check loop: it succeeds exactly when
every metadata feature has the ids batch size. -/
theorem checkMeta_ok_iff {α : Type} (bs : Nat) :
    ∀ (md : List (String × List α)),
      ItemSampler.checkMeta bs md = Except.ok () ↔ ∀ p ∈ md, p.2.length = bs
  | [] => by simp [ItemSampler.checkMeta]
  | (nm, feat) :: rest => by
    by_cases h : feat.length = bs
    · rw [show ItemSampler.checkMeta bs ((nm, feat) :: rest) =
        ItemSampler.checkMeta bs rest by simp [ItemSampler.checkMeta, h]]
      rw [checkMeta_ok_iff bs rest]
      constructor
      · intro hall p hp
        rcases List.mem_cons.mp hp with hp | hp
        · rw [hp]
          exact h
        · exact hall p hp
      · intro hall p hp
        exact hall p (List.mem_cons_of_mem _ hp)
    · constructor
      · intro hok
        exfalso
        simp [ItemSampler.checkMeta, h] at hok
      · intro hall
        exact absurd (hall (nm, feat) (List.mem_cons_self ..)) h

/-- C4: an ItemCollection processed by the ItemSampler call path (items are
added during training before sampling) has the equality of the first
(batch-size) dimension between the item ids and every metadata tensor
enforced: a collection with some mismatched metadata tensor fails with an
error instead of being sampled from, and a collection with matching sizes is
processed without error. -/
theorem claim_C4_batch_size_check {α : Type} (items : ItemCollectionM α)
    (sampled : ItemCollectionM α) :
    ((∃ p ∈ items.metadata, p.2.length ≠ items.ids.length) →
      ∃ e, ItemSampler.call items true sampled = Except.error e) ∧
    ((∀ p ∈ items.metadata, p.2.length = items.ids.length) →
      ItemSampler.call items true sampled = Except.ok sampled) := by
  constructor
  · rintro ⟨p, hp, hne⟩
    cases hcm : ItemSampler.checkMeta items.ids.length items.metadata with
    | ok u =>
      exfalso
      cases u
      exact hne ((checkMeta_ok_iff items.ids.length items.metadata).mp hcm p hp)
    | error e =>
      refine ⟨e, ?_⟩
      simp [ItemSampler.call, ItemSampler.add,
        ItemSampler.check_inputs_batch_sizes, hcm]
  · intro hall
    have hcm : ItemSampler.checkMeta items.ids.length items.metadata =
        Except.ok () :=
      (checkMeta_ok_iff items.ids.length items.metadata).mpr hall
    simp [ItemSampler.call, ItemSampler.add,
      ItemSampler.check_inputs_batch_sizes, hcm]

/-- Witness for C4: ids of batch size 2 with a metadata tensor of batch size
1; the call path during training fails with an error. -/
theorem claim_C4_batch_size_check_witness :
    ∃ e, ItemSampler.call (ItemCollectionM.mk [10, 20] [("m", [5])]) true
      (ItemCollectionM.mk ([] : List Nat) []) = Except.error e :=
  (claim_C4_batch_size_check (ItemCollectionM.mk [10, 20] [("m", [5])])
    (ItemCollectionM.mk ([] : List Nat) [])).1
    ⟨("m", [5]), by decide, by decide⟩

/-- Counterexample to C5 as stated: the empty string is a name that is not
registered in the initializer registry, yet constructing the block with
init set to it does not fail: `if init:` is a Python truthiness test, the
empty string is falsy, the whole initialization branch is skipped, and the
block is constructed with its base (no routes) unchanged. -/
theorem claim_C5_counterexample :
    TabularInputBlock.init TabularInputBlock.demoRegistry
        (some (TabularInputBlock.InitArg.byName "")) none ([] : List String) =
      Except.ok ([] : List String) := rfl

/-- C5 (amended): for every nonempty string name not registered in the
initializer registry, construction fails with a ValueError instead of
constructing a block with no routes; the raised message is the fixed string
"Initializer None not found." because the lookup result (None) overwrote the
name variable before being interpolated, so the error does not name the
missing initializer.  For every registered nonempty name, construction
applies the registered initializer function to the block (followed by the
optional aggregation).  The empty-string name is Python-falsy and skips
initialization entirely. -/
theorem claim_C5_amended_registry_init {σ : Type}
    (reg : List (String × (σ → σ))) (nm : String) (agg : Option (σ → σ))
    (base : σ) (hnm : nm ≠ "") :
    (TabularInputBlock.registryGet reg nm = none →
      TabularInputBlock.init reg (some (TabularInputBlock.InitArg.byName nm))
        agg base = Except.error ("Initializer None not found.")) ∧
    (∀ f, TabularInputBlock.registryGet reg nm = some f →
      TabularInputBlock.init reg (some (TabularInputBlock.InitArg.byName nm))
        agg base = Except.ok (TabularInputBlock.applyAgg agg (f base))) := by
  constructor
  · intro hget
    simp [TabularInputBlock.init, hnm, hget]
  · intro f hget
    simp [TabularInputBlock.init, hnm, hget]

/-- Witness for the amended C5 at the unregistered name "unknown" over the
demo registry. -/
theorem claim_C5_amended_registry_init_witness :
    ("unknown" ≠ "") ∧
    TabularInputBlock.init TabularInputBlock.demoRegistry
        (some (TabularInputBlock.InitArg.byName "unknown")) none
        ([] : List String) = Except.error ("Initializer None not found.") :=
  ⟨by decide,
    (claim_C5_amended_registry_init TabularInputBlock.demoRegistry "unknown"
      none ([] : List String) (by decide)).1 (by rfl)⟩

/-- C8: for every TransformerBlock and every input, calling the block applies
its stages sequentially in the fixed order: the pre block first (when one is
configured), then the wrapped transformer layer, then the post
output-selection block (when one is configured); the result of the call is
the result of this chain applied to the densified input wrapped as the
inputs_embeds dict. -/
theorem claim_C8_call_order {α : Type} (pre : Option (HFData α → HFData α))
    (transformer : HFData α → HFData α) (post : Option (HFData α → HFData α))
    (inputs : HFTensor α) :
    TransformerBlock.call pre transformer post inputs =
      TransformerBlock.applyStage post (transformer
        (TransformerBlock.applyStage pre
          (HFData.inputs_embeds (TransformerBlock.toTensor inputs)))) := by
  cases pre <;> cases post <;> rfl

/-- C9: for every nonempty input batch whose tensors all have first dimension
B, AddRandomNegativesToBatch.call returns a mapping over the same column
names in order, in which every output tensor has first dimension
B * (n_per_positive + 1): item-tagged columns are the original rows followed
by the n_per_positive * B gathered negatives, and every other column is each
original row repeated n_per_positive + 1 times, so all output columns stay
row-count aligned. -/
theorem claim_C9_negatives_row_alignment {ρ : Type} [Inhabited ρ]
    (item_cols : List String) (n_per_positive : Nat) (rng : Nat → Nat)
    (inputs : List (String × List ρ)) (B : Nat) (hne : inputs ≠ [])
    (hB : ∀ p ∈ inputs, p.2.length = B) :
    ((AddRandomNegativesToBatch.call item_cols n_per_positive rng inputs).map
        (fun p => p.1) = inputs.map fun p => p.1) ∧
    (∀ p ∈ AddRandomNegativesToBatch.call item_cols n_per_positive rng inputs,
      p.2.length = B * (n_per_positive + 1)) ∧
    (∀ p ∈ inputs, p.1 ∈ item_cols →
      (p.1, p.2 ++ tfGather p.2 (AddRandomNegativesToBatch.sample_ids rng
        n_per_positive B)) ∈
        AddRandomNegativesToBatch.call item_cols n_per_positive rng inputs) ∧
    (∀ p ∈ inputs, p.1 ∉ item_cols →
      (p.1, tfRepeat p.2 (n_per_positive + 1)) ∈
        AddRandomNegativesToBatch.call item_cols n_per_positive rng inputs) := by
  obtain ⟨q, qs, rfl⟩ : ∃ q qs, inputs = q :: qs := by
    cases inputs with
    | nil => exact absurd rfl hne
    | cons q qs => exact ⟨q, qs, rfl⟩
  have hhead : (((q :: qs).map fun p => p.2).headD []).length = B := by
    simp only [List.map_cons, List.headD_cons]
    exact hB q (List.mem_cons_self ..)
  have hcall : AddRandomNegativesToBatch.call item_cols n_per_positive rng
      (q :: qs) =
      (q :: qs).map fun p =>
        if p.1 ∈ item_cols then
          (p.1, p.2 ++ tfGather p.2 (AddRandomNegativesToBatch.sample_ids rng
            n_per_positive B))
        else (p.1, tfRepeat p.2 (n_per_positive + 1)) := by
    simp only [AddRandomNegativesToBatch.call]
    rw [hhead]
  refine ⟨?_, ?_, ?_, ?_⟩
  · rw [hcall, List.map_map]
    apply List.map_congr_left
    intro p _
    by_cases hp : p.1 ∈ item_cols <;> simp [hp]
  · intro p hp
    rw [hcall] at hp
    obtain ⟨p0, hp0, rfl⟩ := List.mem_map.mp hp
    have hp0B := hB p0 hp0
    by_cases hitem : p0.1 ∈ item_cols
    · rw [if_pos hitem]
      simp only [List.length_append, tfGather, List.length_map,
        AddRandomNegativesToBatch.sample_ids, List.length_range, hp0B]
      ring
    · rw [if_neg hitem]
      show (tfRepeat p0.2 (n_per_positive + 1)).length = B * (n_per_positive + 1)
      rw [TabularPadding.tfRepeat_length, hp0B]
  · intro p hp hitem
    rw [hcall]
    exact List.mem_map.mpr ⟨p, hp, by rw [if_pos hitem]⟩
  · intro p hp hitem
    rw [hcall]
    exact List.mem_map.mpr ⟨p, hp, by rw [if_neg hitem]⟩

/-- Witness for C9: two columns of batch size 2, one item-tagged, with one
negative per positive; the item column of the output has 2 * (1 + 1) rows. -/
theorem claim_C9_negatives_row_alignment_witness :
    (("item", ([100, 200, 100, 200] : List Nat)) ∈
      AddRandomNegativesToBatch.call ["item"] 1 (fun k => k)
        [("item", [100, 200]), ("user", [1, 2])]) ∧
    (("item", ([100, 200, 100, 200] : List Nat)).2.length = 2 * (1 + 1)) :=
  ⟨by decide,
    (claim_C9_negatives_row_alignment ["item"] 1 (fun k => k)
      [("item", [100, 200]), ("user", [1, 2])] 2 (by decide) (by decide)).2.1
      ("item", [100, 200, 100, 200]) (by decide)⟩

/-- C10: for every positive batch_size, every id produced by
AddRandomNegativesToBatch.sample_ids lies in the half-open range
[0, batch_size), so the subsequent gather of negatives from an item column
with batch_size rows never indexes out of bounds. -/
theorem claim_C10_sample_ids_in_range (rng : Nat → Nat)
    (n_per_positive batch_size : Nat) (hB : 0 < batch_size) :
    (∀ x ∈ AddRandomNegativesToBatch.sample_ids rng n_per_positive batch_size,
      x < batch_size) ∧
    (∀ (ρ : Type) (val : List ρ), val.length = batch_size →
      ∀ x ∈ AddRandomNegativesToBatch.sample_ids rng n_per_positive batch_size,
        x < val.length) := by
  have hmain : ∀ x ∈ AddRandomNegativesToBatch.sample_ids rng n_per_positive
      batch_size, x < batch_size := by
    intro x hx
    simp only [AddRandomNegativesToBatch.sample_ids, List.mem_map,
      List.mem_range] at hx
    obtain ⟨k, _, rfl⟩ := hx
    exact Nat.mod_lt _ hB
  refine ⟨hmain, ?_⟩
  intro ρ val hval x hx
  rw [hval]
  exact hmain x hx

/-- Witness for C10 at batch_size 3, n_per_positive 2, a concrete generator:
the sampled id 2 is produced and lies below the batch size. -/
theorem claim_C10_sample_ids_in_range_witness :
    ((2 : Nat) ∈ AddRandomNegativesToBatch.sample_ids (fun k => k * 5 + 1) 2 3) ∧
    (2 : Nat) < 3 :=
  ⟨by decide,
    (claim_C10_sample_ids_in_range (fun k => k * 5 + 1) 2 3 (by decide)).1 2
      (by decide)⟩
